import Mathlib

/-!
# MindGames problem-chain generation engine: a verified model

This file is a shallow embedding of the problem-generator module of the
MindGames repository (`src/lib/problem-generator.ts`) together with proofs of
the behavioural properties stated in the project's specification.

## Modelling conventions

* JavaScript `number`s that hold integer quantities (operand bounds, results,
  chain lengths, counts) are modelled as `Int`.  All values reachable by the
  generator are integers well below `2^52`, where JavaScript integer
  arithmetic is exact.
* `Math.random()` returns a double of the form `d / 2^53` with
  `0 ≤ d < 2^53`.  The random source is therefore modelled as a stream
  `σ : Nat → Nat` of numerators, consumed one value per `Math.random()` call;
  an explicit cursor `k` is threaded through every function.
  `Math.floor(r * c)` for `r = d / 2^53` and an integer `c` is exactly
  `(d * c).fdiv (2^53)`, which is how `randomInt` is modelled.
* Operation-mix percentages are integers (every preset and the slider UI use
  whole percentages); a comparison `random < cumulative` with
  `random = d / 2^53 * 100` is modelled exactly as `100 * d < cumulative * 2^53`.
* `generateId` returns the 9 base-36 fractional digits of its draw (characters
  2..10 of `Math.random().toString(36)`); the digits are modelled as a
  `List Nat`.  JavaScript drops trailing zero digits from `toString(36)`, which
  only shortens the string; the model keeps all nine digit slots.  Either way
  the id is a function of the single draw that produced it.
* Failure is the `none` value of `Option`, exactly as the source uses `null`.
-/

namespace MindGames

/-- The four arithmetic operations of the generator (`Operation` in
`src/types/index.ts`). -/
inductive Operation
  | add
  | subtract
  | multiply
  | divide
deriving DecidableEq, Repr, Inhabited

/-- Operand bounds for one operation (`OperationConfig`).  The source type also
carries `enabled` and `frequency`, which the generation algorithm never reads
(see the spec's design notes); they are omitted from the model. -/
structure OperationConfig where
  minValue : Int
  maxValue : Int
deriving DecidableEq, Repr

/-- The four per-operation configurations (the `operations` record of
`GameConfig`). -/
structure OperationsConfig where
  add : OperationConfig
  subtract : OperationConfig
  multiply : OperationConfig
  divide : OperationConfig
deriving DecidableEq, Repr

/-- Indexing `config.operations[operation]`. -/
def OperationsConfig.get (ops : OperationsConfig) : Operation → OperationConfig
  | .add => ops.add
  | .subtract => ops.subtract
  | .multiply => ops.multiply
  | .divide => ops.divide

/-- Percentage mix for the four operations (`OperationMix`).  Percentages are
whole numbers in every preset and in the slider UI. -/
structure OperationMix where
  add : Int
  subtract : Int
  multiply : Int
  divide : Int
deriving DecidableEq, Repr

/-- Indexing `config.operationMix[op]`. -/
def OperationMix.get (mix : OperationMix) : Operation → Int
  | .add => mix.add
  | .subtract => mix.subtract
  | .multiply => mix.multiply
  | .divide => mix.divide

/-- The game configuration (`GameConfig`).  UI-only fields (`difficultyLevel`,
`notationStyle`, `showSumOfDigits`, `showResultLines`, `decorativeCharacter`,
`timeLimit`) are never read by the generator and are omitted. -/
structure GameConfig where
  maxResult : Int
  chainLength : Int
  chainCount : Int
  operations : OperationsConfig
  operationMix : OperationMix
  allowNegativeResults : Bool
deriving DecidableEq, Repr

/-- One arithmetic step (`Problem`). -/
structure Problem where
  id : List Nat
  startValue : Int
  operation : Operation
  operand : Int
  result : Int
deriving DecidableEq, Repr, Inhabited

/-- A chain of linked problems (`ProblemChain`). -/
structure ProblemChain where
  id : List Nat
  problems : List Problem
  startingNumber : Int
deriving DecidableEq, Repr, Inhabited

/-- A worksheet (`Worksheet`).  The `createdAt` wall-clock timestamp is not
modelled. -/
structure Worksheet where
  id : List Nat
  chains : List ProblemChain
  config : GameConfig
deriving DecidableEq, Repr

/-- Denominator of the `Math.random()` grid: doubles in `[0,1)` produced by the
generator are `d / 2^53`. -/
def D53 : Nat := 2 ^ 53

/-- A random stream is valid when every draw numerator is below `2^53`, i.e.
every `Math.random()` value lies in `[0, 1)`. -/
def RandOk (σ : Nat → Nat) : Prop := ∀ i, σ i < D53

/-- `randomInt(min, max)`: `Math.floor(Math.random() * (max - min + 1)) + min`,
with the draw numerator `d` supplied explicitly;
`⌊d / 2^53 * c⌋ = (d * c).fdiv 2^53`. -/
def randomInt (min max : Int) (d : Nat) : Int :=
  ((d : Int) * (max - min + 1)).fdiv (D53 : Int) + min

/-- `generateId`: the nine base-36 fractional digits of the draw
(`Math.random().toString(36).substring(2, 11)`).  Digit `i` of `d / 2^53` is
`⌊d / 2^53 * 36^(i+1)⌋ mod 36`. -/
def generateId (d : Nat) : List Nat :=
  (List.range 9).map (fun i => d * 36 ^ (i + 1) / D53 % 36)

/-- `selectOperationByMix`: weighted selection walking add, subtract, multiply,
divide in fixed order; `random = d / 2^53 * 100` and each test
`random < cumulative` is `100 * d < cumulative * 2^53` exactly. -/
def selectOperationByMix (mix : OperationMix) (d : Nat) : Operation :=
  if (100 * d : Int) < mix.add * (D53 : Int) then .add
  else if (100 * d : Int) < (mix.add + mix.subtract) * (D53 : Int) then .subtract
  else if (100 * d : Int) < (mix.add + mix.subtract + mix.multiply) * (D53 : Int) then .multiply
  else .divide

/-- The value in `[0, 100)` drawn by `selectOperationByMix` from numerator `d`:
`Math.random() * 100`. -/
def drawValue (d : Nat) : ℚ := 100 * (d : ℚ) / (D53 : ℚ)

/-- The integers from `lo` to `hi` inclusive: the values taken by the loop
variable `d` in the divide case of `generateOperand`. -/
def divisorCandidates (lo hi : Int) : List Int :=
  (List.range (hi + 1 - lo).toNat).map (fun i : Nat => lo + (i : Int))

/-- The `validDivisors` array built by the divide case of `generateOperand`:
all `d` in `[minV, min(maxV, currentValue)]` dividing `currentValue` evenly
with quotient in `[1, maxResult]`. -/
def validDivisors (currentValue minV maxV maxResult : Int) : List Int :=
  (divisorCandidates minV (Min.min maxV currentValue)).filter
    (fun dv => decide (currentValue % dv = 0 ∧ 1 ≤ currentValue / dv ∧
      currentValue / dv ≤ maxResult))

/-- `generateOperand`: find a valid operand for `operation` at `currentValue`,
or `none`.  Returns the advanced stream cursor; a draw is consumed only on the
paths where the source calls `Math.random()`.

For the divide case, `currentValue % d === 0` is the integer test
`currentValue % d = 0` (for `d = 0` JavaScript yields `NaN % 0 ≠ 0`, and
`currentValue % 0 = currentValue ≠ 0` under the `currentValue > 0` guard, so
the two agree), and `currentValue / d` is exact hence equal to integer
division.  `Math.floor(maxResult / currentValue)` is `Int.fdiv`. -/
def generateOperand (operation : Operation) (currentValue : Int) (config : GameConfig)
    (σ : Nat → Nat) (k : Nat) : Option Int × Nat :=
  let opConfig := config.operations.get operation
  let min := opConfig.minValue
  let max := opConfig.maxValue
  match operation with
  | .add =>
      let maxAddend := config.maxResult - currentValue
      if maxAddend < min then (none, k)
      else
        let max := Min.min max maxAddend
        if max < min then (none, k)
        else (some (randomInt min max (σ k)), k + 1)
  | .subtract =>
      let minResult : Int := if config.allowNegativeResults then -config.maxResult else 1
      let maxSubtrahend := currentValue - minResult
      if maxSubtrahend < min then (none, k)
      else
        let max := Min.min max maxSubtrahend
        if max < min then (none, k)
        else (some (randomInt min max (σ k)), k + 1)
  | .multiply =>
      if currentValue = 0 then (some (randomInt min max (σ k)), k + 1)
      else
        let maxMultiplier := config.maxResult.fdiv currentValue
        if maxMultiplier < min then (none, k)
        else
          let max := Min.min max maxMultiplier
          if max < min then (none, k)
          else (some (randomInt min max (σ k)), k + 1)
  | .divide =>
      if currentValue ≤ 0 then (none, k)
      else
        let divisors := validDivisors currentValue min max config.maxResult
        if divisors.length = 0 then (none, k)
        else
          (some (divisors.getD (randomInt 0 ((divisors.length : Int) - 1) (σ k)).toNat 0),
           k + 1)

/-- `calculateResult`: the arithmetic of one step.  For divide this is integer
division; `tryGenerateProblem` only keeps it when the division is exact, in
which case it agrees with the real quotient computed by the source. -/
def calculateResult (value : Int) (operation : Operation) (operand : Int) : Int :=
  match operation with
  | .add => value + operand
  | .subtract => value - operand
  | .multiply => value * operand
  | .divide => value / operand

/-- `tryGenerateProblem`: obtain an operand, compute the result and validate it.

The source computes `result` as a float and checks, in order,
`result < 1 && !allowNegativeResults`, then `result > maxResult`, then for
divide `!Number.isInteger(result)`.  The model tests exact divisibility
(`operand ≠ 0 ∧ operand ∣ currentValue`, phrased through `%`) first and then
performs the two bound checks on the integer result; on every input the four
possible rejections select the same `none`/`some` outcome as the source's
order, because each check failing yields `none` either way and a fractional or
infinite quotient is rejected by both versions. -/
def tryGenerateProblem (currentValue : Int) (operation : Operation) (config : GameConfig)
    (σ : Nat → Nat) (k : Nat) : Option Problem × Nat :=
  match generateOperand operation currentValue config σ k with
  | (none, k') => (none, k')
  | (some operand, k') =>
      if operation = .divide ∧ (operand = 0 ∨ currentValue % operand ≠ 0) then (none, k')
      else
        let result := calculateResult currentValue operation operand
        if result < 1 ∧ config.allowNegativeResults = false then (none, k')
        else if config.maxResult < result then (none, k')
        else
          (some { id := generateId (σ k'), startValue := currentValue,
                  operation := operation, operand := operand, result := result }, k' + 1)

/-- The attempt loop of `generateProblem`: up to `attempts` weighted-random
tries, each drawing an operation by mix and attempting problem construction. -/
def generateProblemAttempts (currentValue : Int) (config : GameConfig) (σ : Nat → Nat) :
    Nat → Nat → Option Problem × Nat
  | 0, k => (none, k)
  | attempts + 1, k =>
      let operation := selectOperationByMix config.operationMix (σ k)
      match tryGenerateProblem currentValue operation config σ (k + 1) with
      | (some problem, k') => (some problem, k')
      | (none, k') => generateProblemAttempts currentValue config σ attempts k'

/-- Try problem construction for each operation of a list in order, returning
the first success (the `for (const op of sortedOps)` fallback loop). -/
def tryOperations (currentValue : Int) (config : GameConfig) (σ : Nat → Nat) :
    List Operation → Nat → Option Problem × Nat
  | [], k => (none, k)
  | op :: rest, k =>
      match tryGenerateProblem currentValue op config σ k with
      | (some problem, k') => (some problem, k')
      | (none, k') => tryOperations currentValue config σ rest k'

/-- Stable insertion into a list sorted by descending mix percentage: `op` goes
before the first element whose percentage is not larger.  Elements inserted
earlier (i.e. earlier in the original array) stay in front on ties, matching
the stable `Array.prototype.sort` with comparator `mix[b] - mix[a]`. -/
def insertByMixDesc (mix : OperationMix) (op : Operation) : List Operation → List Operation
  | [] => [op]
  | o :: os =>
      if mix.get op < mix.get o then o :: insertByMixDesc mix op os
      else op :: o :: os

/-- Stable sort of the operations by descending mix percentage
(`[...operations].sort((a, b) => mix[b] - mix[a])`; any correct stable sort
produces this unique result). -/
def sortedOperations (mix : OperationMix) : List Operation → List Operation
  | [] => []
  | op :: rest => insertByMixDesc mix op (sortedOperations mix rest)

/-- The last-resort configuration of `generateProblem`: add and subtract
operand bounds narrowed to `[1, 5]`, everything else unchanged. -/
def simpleConfig (config : GameConfig) : GameConfig :=
  { config with
      operations :=
        { config.operations with
            add := { config.operations.add with minValue := 1, maxValue := 5 },
            subtract := { config.operations.subtract with minValue := 1, maxValue := 5 } } }

/-- `generateProblem`: the three-tier fallback ladder — `maxAttempts` weighted
random tries, then every operation in descending mix order, then add and
subtract with bounds narrowed to `[1, 5]`. -/
def generateProblem (currentValue : Int) (config : GameConfig) (σ : Nat → Nat)
    (maxAttempts : Nat) (k : Nat) : Option Problem × Nat :=
  match generateProblemAttempts currentValue config σ maxAttempts k with
  | (some problem, k') => (some problem, k')
  | (none, k') =>
      let sortedOps :=
        sortedOperations config.operationMix [.add, .subtract, .multiply, .divide]
      match tryOperations currentValue config σ sortedOps k' with
      | (some problem, k₂) => (some problem, k₂)
      | (none, k₂) =>
          let simple := simpleConfig config
          match tryGenerateProblem currentValue .add simple σ k₂ with
          | (some addProblem, k₃) => (some addProblem, k₃)
          | (none, k₃) =>
              match tryGenerateProblem currentValue .subtract simple σ k₃ with
              | (some subProblem, k₄) => (some subProblem, k₄)
              | (none, k₄) => (none, k₄)

/-- The highly composite starting candidates of `generateChain`. -/
def goodStarts : List Int := [12, 18, 20, 24, 30, 36, 40, 48, 60, 72, 80, 90, 100]

/-- The growth loop of `generateChain` (`for (let i = 0; i < chainLength; i++)`):
generate up to `fuel` problems, feeding each result forward; on a failed step
keep the accumulated problems if there are at least 3 of them, otherwise fail. -/
def chainLoop (config : GameConfig) (σ : Nat → Nat) :
    Nat → Int → List Problem → Nat → Option (List Problem) × Nat
  | 0, _, problems, k => (some problems, k)
  | fuel + 1, currentValue, problems, k =>
      match generateProblem currentValue config σ 20 k with
      | (none, k') => if 3 ≤ problems.length then (some problems, k') else (none, k')
      | (some problem, k') => chainLoop config σ fuel problem.result (problems ++ [problem]) k'

/-- The starting-value heuristic of `generateChain`: the chosen
`(minStart, maxStart)` pair together with the advanced stream cursor.  For
multiply/divide-heavy mixes (`multiply% + divide% >= 50`) a highly composite
start `≤ maxResult / 2` is drawn from `goodStarts` (one draw); otherwise the
closed-form ranges are used without consuming a draw.  Here
`n <= maxResult / 2` is the exact integer test `2 * n ≤ maxResult`, and
`Math.floor(maxResult * 0.1)`, `Math.floor(maxResult * 0.4)` and
`Math.floor(maxResult / 3)` are `fdiv` by 10, `fdiv` of `2 * maxResult` by 5
and `fdiv` by 3, exact over the representable range. -/
def chainStartBounds (config : GameConfig) (σ : Nat → Nat) (k : Nat) : Int × Int × Nat :=
  if 50 ≤ config.operationMix.multiply + config.operationMix.divide then
    let filteredStarts := goodStarts.filter (fun n => decide (2 * n ≤ config.maxResult))
    if 0 < filteredStarts.length then
      let idx := randomInt 0 ((filteredStarts.length : Int) - 1) (σ k)
      let s := filteredStarts.getD idx.toNat 0
      (s, s, k + 1)
    else
      ((10 : Int), Min.min 50 (config.maxResult.fdiv 3), k)
  else
    (Max.max 5 (config.maxResult.fdiv 10),
     Min.min ((2 * config.maxResult).fdiv 5) 100, k)

/-- `generateChain`: choose a starting value by the composite-number
heuristic, run the growth loop, and fail on an empty problem list. -/
def generateChain (config : GameConfig) (σ : Nat → Nat) (k : Nat) :
    Option ProblemChain × Nat :=
  let sb := chainStartBounds config σ k
  let currentValue := randomInt sb.1 sb.2.1 (σ sb.2.2)
  let startingNumber := currentValue
  match chainLoop config σ config.chainLength.toNat currentValue [] (sb.2.2 + 1) with
  | (none, k₁) => (none, k₁)
  | (some problems, k₁) =>
      if problems.length = 0 then (none, k₁)
      else
        (some { id := generateId (σ k₁), problems := problems,
                startingNumber := startingNumber }, k₁ + 1)

/-- The retry loop of `generateWorksheet`
(`while (chains.length < chainCount && attempts < maxAttempts)`), with the
remaining attempt budget as fuel.  Returns the collected chains, the stream
cursor and the number of attempts consumed. -/
def worksheetLoop (config : GameConfig) (σ : Nat → Nat) :
    Nat → List ProblemChain → Nat → Nat → List ProblemChain × Nat × Nat
  | 0, chains, k, attempts => (chains, k, attempts)
  | fuel + 1, chains, k, attempts =>
      if (chains.length : Int) < config.chainCount then
        match generateChain config σ k with
        | (some chain, k') =>
            if 3 ≤ chain.problems.length then
              worksheetLoop config σ fuel (chains ++ [chain]) k' (attempts + 1)
            else
              worksheetLoop config σ fuel chains k' (attempts + 1)
        | (none, k') => worksheetLoop config σ fuel chains k' (attempts + 1)
      else (chains, k, attempts)

/-- `generateWorksheet`: collect up to `chainCount` chains of at least 3
problems within an attempt budget of `chainCount * 3`; always returns a
worksheet. -/
def generateWorksheet (config : GameConfig) (σ : Nat → Nat) (k : Nat) : Worksheet × Nat :=
  let maxAttempts := (config.chainCount * 3).toNat
  let out := worksheetLoop config σ maxAttempts [] k 0
  ({ id := generateId (σ out.2.1), chains := out.1, config := config }, out.2.1 + 1)

/-! ## Concrete fixtures used by witnesses and counterexamples -/

/-- The random source whose every `Math.random()` draw is `0`: a behaviour the
engine must tolerate, since nothing prevents the global generator from
repeating values. -/
def zeroStream : Nat → Nat := fun _ => 0

/-- The repository's `DEFAULT_CONFIG` (restricted to the fields the generator
reads). -/
def cfgBase : GameConfig :=
  { maxResult := 100
    chainLength := 6
    chainCount := 5
    operations :=
      { add := { minValue := 1, maxValue := 20 }
        subtract := { minValue := 1, maxValue := 20 }
        multiply := { minValue := 2, maxValue := 10 }
        divide := { minValue := 2, maxValue := 10 } }
    operationMix := { add := 40, subtract := 40, multiply := 10, divide := 10 }
    allowNegativeResults := false }

/-- The default configuration with a requested chain length of 1. -/
def cfgShort : GameConfig := { cfgBase with chainLength := 1 }

/-- A configuration with negative results allowed and a negative operand range
for addition. -/
def cfgNegOperand : GameConfig :=
  { cfgBase with
      allowNegativeResults := true
      chainLength := 1
      operationMix := { add := 100, subtract := 0, multiply := 0, divide := 0 }
      operations :=
        { cfgBase.operations with add := { minValue := -500, maxValue := -300 } } }

/-- The default configuration with a pure-division mix. -/
def cfgDivideHeavy : GameConfig :=
  { cfgBase with operationMix := { add := 0, subtract := 0, multiply := 0, divide := 100 } }

/-- The default configuration downsized to two chains of three problems. -/
def cfgTwoChains : GameConfig := { cfgBase with chainCount := 2, chainLength := 3 }

/-! ## Helper lemmas: random primitives -/

theorem D53_cast_pos : (0 : Int) < (D53 : Int) := by
  have : 0 < D53 := by decide
  exact_mod_cast this

/-- When the requested range is non-empty and the draw is a valid
`Math.random()` numerator, `randomInt` lands in the range. -/
theorem randomInt_mem {lo hi : Int} {d : Nat} (hd : d < D53) (hle : lo ≤ hi) :
    lo ≤ randomInt lo hi d ∧ randomInt lo hi d ≤ hi := by
  unfold randomInt
  rw [Int.fdiv_eq_ediv _ D53_cast_pos.le]
  have h0 : (0 : Int) ≤ (d : Int) * (hi - lo + 1) / (D53 : Int) :=
    Int.ediv_nonneg (mul_nonneg (by positivity) (by omega)) D53_cast_pos.le
  have h1 : (d : Int) * (hi - lo + 1) / (D53 : Int) < hi - lo + 1 := by
    rw [Int.ediv_lt_iff_lt_mul D53_cast_pos]
    have hdI : (d : Int) < (D53 : Int) := by exact_mod_cast hd
    calc (d : Int) * (hi - lo + 1) < (D53 : Int) * (hi - lo + 1) := by
          exact mul_lt_mul_of_pos_right hdI (by omega)
      _ = (hi - lo + 1) * (D53 : Int) := mul_comm _ _
  omega

/-- For any draw below `2^53`, `randomInt lo hi` is at least
`min lo (hi + 1)` — in particular at least `hi + 1` when the range is
reversed, matching `Math.floor(r * c) + lo` for negative spans `c`. -/
theorem randomInt_lower {lo hi : Int} {d : Nat} (hd : d < D53) :
    Min.min lo (hi + 1) ≤ randomInt lo hi d := by
  rcases le_or_lt lo hi with hle | hlt
  · have := (randomInt_mem hd hle).1
    omega
  · unfold randomInt
    rw [Int.fdiv_eq_ediv _ D53_cast_pos.le]
    have h1 : hi - lo + 1 ≤ (d : Int) * (hi - lo + 1) / (D53 : Int) := by
      rw [Int.le_ediv_iff_mul_le D53_cast_pos]
      have hdI : (d : Int) ≤ (D53 : Int) := by
        have : (d : Int) < (D53 : Int) := by exact_mod_cast hd
        omega
      calc (hi - lo + 1) * (D53 : Int) = (D53 : Int) * (hi - lo + 1) := mul_comm _ _
        _ ≤ (d : Int) * (hi - lo + 1) := mul_le_mul_of_nonpos_right hdI (by omega)
    omega

/-- Membership in the divide-loop candidate range. -/
theorem divisorCandidates_mem {lo hi d : Int} :
    d ∈ divisorCandidates lo hi ↔ lo ≤ d ∧ d ≤ hi := by
  unfold divisorCandidates
  constructor
  · intro h
    obtain ⟨i, hmem, heq⟩ := List.mem_map.mp h
    rw [List.mem_range] at hmem
    omega
  · intro h
    apply List.mem_map.mpr
    exact ⟨(d - lo).toNat, List.mem_range.mpr (by omega), by omega⟩

/-! ## Helper lemmas: operand search -/

/-- Membership in `validDivisors` is exactly the divisor predicate of the
specification. -/
theorem validDivisors_mem {cv minV maxV R dv : Int} :
    dv ∈ validDivisors cv minV maxV R ↔
      minV ≤ dv ∧ dv ≤ Min.min maxV cv ∧ cv % dv = 0 ∧ 1 ≤ cv / dv ∧ cv / dv ≤ R := by
  unfold validDivisors
  rw [List.mem_filter, divisorCandidates_mem]
  simp only [decide_eq_true_eq]
  tauto

/-- Add operand search returns `none` exactly when the range
`[minValue, min(maxValue, maxResult - currentValue)]` is empty. -/
theorem generateOperand_add_none {cv : Int} {config : GameConfig} {σ : Nat → Nat} {k : Nat} :
    (generateOperand .add cv config σ k).1 = none ↔
      Min.min config.operations.add.maxValue (config.maxResult - cv) <
        config.operations.add.minValue := by
  simp only [generateOperand, OperationsConfig.get]
  split_ifs with h1 h2 <;> simp <;> omega

/-- A successfully found add operand lies in
`[minValue, min(maxValue, maxResult - currentValue)]`. -/
theorem generateOperand_add_some {cv : Int} {config : GameConfig} {σ : Nat → Nat} {k : Nat}
    (hd : σ k < D53) :
    ∀ a, (generateOperand .add cv config σ k).1 = some a →
      config.operations.add.minValue ≤ a ∧
      a ≤ Min.min config.operations.add.maxValue (config.maxResult - cv) := by
  intro a ha
  simp only [generateOperand, OperationsConfig.get] at ha
  split_ifs at ha with h1 h2
  simp at ha
  have hmem := randomInt_mem hd
    (show config.operations.add.minValue ≤
      Min.min config.operations.add.maxValue (config.maxResult - cv) by omega)
  omega

/-- A successfully found subtract operand lies in
`[minValue, min(maxValue, currentValue - minResult)]` where `minResult` is
`-maxResult` when negative results are allowed and `1` otherwise. -/
theorem generateOperand_subtract_some {cv : Int} {config : GameConfig} {σ : Nat → Nat} {k : Nat}
    (hd : σ k < D53) :
    ∀ a, (generateOperand .subtract cv config σ k).1 = some a →
      config.operations.subtract.minValue ≤ a ∧
      a ≤ Min.min config.operations.subtract.maxValue
            (cv - (if config.allowNegativeResults then -config.maxResult else 1)) := by
  intro a ha
  simp only [generateOperand, OperationsConfig.get] at ha
  split_ifs at ha with hneg h1 h2 h3 h4 <;> simp at ha
  · have hmem := randomInt_mem hd
      (show config.operations.subtract.minValue ≤
        Min.min config.operations.subtract.maxValue (cv + config.maxResult) by omega)
    rw [if_pos hneg]
    omega
  · have hmem := randomInt_mem hd
      (show config.operations.subtract.minValue ≤
        Min.min config.operations.subtract.maxValue (cv - 1) by omega)
    rw [if_neg hneg]
    omega

/-- A successfully found multiply operand: at `currentValue = 0` it lies in
`[minValue, maxValue]`, otherwise in
`[minValue, min(maxValue, floor(maxResult / currentValue))]`. -/
theorem generateOperand_multiply_some {cv : Int} {config : GameConfig} {σ : Nat → Nat} {k : Nat}
    (hd : σ k < D53) :
    ∀ a, (generateOperand .multiply cv config σ k).1 = some a →
      (cv = 0 ∧ (config.operations.multiply.minValue ≤ config.operations.multiply.maxValue →
          config.operations.multiply.minValue ≤ a ∧ a ≤ config.operations.multiply.maxValue)) ∨
      (cv ≠ 0 ∧ config.operations.multiply.minValue ≤ a ∧
        a ≤ Min.min config.operations.multiply.maxValue (config.maxResult.fdiv cv)) := by
  intro a ha
  simp only [generateOperand, OperationsConfig.get] at ha
  split_ifs at ha with h0 h1 h2 <;> simp at ha
  · left
    refine ⟨h0, fun hle => ?_⟩
    have hmem := randomInt_mem hd hle
    omega
  · right
    refine ⟨h0, ?_⟩
    have hmem := randomInt_mem hd
      (show config.operations.multiply.minValue ≤
        Min.min config.operations.multiply.maxValue (config.maxResult.fdiv cv) by omega)
    omega

/-- Divide operand search fails on non-positive current values. -/
theorem generateOperand_divide_nonpos {cv : Int} {config : GameConfig} {σ : Nat → Nat} {k : Nat}
    (hcv : cv ≤ 0) : (generateOperand .divide cv config σ k).1 = none := by
  simp only [generateOperand, OperationsConfig.get]
  rw [if_pos hcv]

/-- For a positive current value, divide operand search fails exactly when no
valid divisor exists. -/
theorem generateOperand_divide_none {cv : Int} {config : GameConfig} {σ : Nat → Nat} {k : Nat}
    (hcv : 0 < cv) :
    (generateOperand .divide cv config σ k).1 = none ↔
      validDivisors cv config.operations.divide.minValue config.operations.divide.maxValue
        config.maxResult = [] := by
  simp only [generateOperand, OperationsConfig.get]
  rw [if_neg (by omega)]
  split_ifs with hlen
  · simp only [true_iff]
    exact List.length_eq_zero.mp hlen
  · simp only [false_iff]
    intro hnil
    exact hlen (by rw [hnil]; rfl)

/-- A successfully found divide operand is a member of the valid-divisor
list. -/
theorem generateOperand_divide_some {cv : Int} {config : GameConfig} {σ : Nat → Nat} {k : Nat}
    (hd : σ k < D53) :
    ∀ a, (generateOperand .divide cv config σ k).1 = some a →
      a ∈ validDivisors cv config.operations.divide.minValue
            config.operations.divide.maxValue config.maxResult := by
  intro a ha
  simp only [generateOperand, OperationsConfig.get] at ha
  split_ifs at ha with h0 hlen
  simp at ha
  set l := validDivisors cv config.operations.divide.minValue
    config.operations.divide.maxValue config.maxResult with hl
  have hlenpos : 0 < l.length := by omega
  have hidx := randomInt_mem hd (show (0 : Int) ≤ (l.length : Int) - 1 by omega)
  have hlt : (randomInt 0 ((l.length : Int) - 1) (σ k)).toNat < l.length := by omega
  rw [List.getElem?_eq_getElem hlt, Option.getD_some] at ha
  rw [← ha]
  exact List.getElem_mem hlt

/-- Inversion for a successful `tryGenerateProblem`: the produced problem
starts at the current value, uses the requested operation, stores an operand
found by the operand search and the arithmetic result, and passed all
validation checks. -/
theorem tryGenerateProblem_some {cv : Int} {op : Operation} {config : GameConfig}
    {σ : Nat → Nat} {k : Nat} {p : Problem} {k' : Nat}
    (h : tryGenerateProblem cv op config σ k = (some p, k')) :
    p.startValue = cv ∧ p.operation = op ∧
    (generateOperand op cv config σ k).1 = some p.operand ∧
    p.result = calculateResult cv op p.operand ∧
    (config.allowNegativeResults = false → 1 ≤ p.result) ∧
    p.result ≤ config.maxResult ∧
    (op = .divide → p.operand ≠ 0 ∧ cv % p.operand = 0 ∧ p.result * p.operand = cv) := by
  simp only [tryGenerateProblem] at h
  rcases hgen : generateOperand op cv config σ k with ⟨o, kb⟩
  rw [hgen] at h
  cases o with
  | none => simp at h
  | some a =>
      dsimp only at h
      split_ifs at h with hdiv hv1 hv2
      · simp at h
      · simp at h
      · simp at h
      · simp only [Prod.mk.injEq, Option.some.injEq] at h
        obtain ⟨hp, hk⟩ := h
        subst hp
        dsimp only
        refine ⟨rfl, rfl, by simp, rfl, ?_, ?_, ?_⟩
        · intro hneg
          rcases not_and_or.mp hv1 with h | h
          · omega
          · exact absurd hneg h
        · omega
        · intro hop
          have := not_and_or.mp hdiv
          rcases this with h | h
          · exact absurd hop h
          · push_neg at h
            obtain ⟨ha0, hmod⟩ := h
            refine ⟨ha0, hmod, ?_⟩
            simp only [calculateResult, hop]
            exact Int.ediv_mul_cancel (Int.dvd_of_emod_eq_zero hmod)

/-- Any problem returned by the attempt loop comes from some
`tryGenerateProblem` call with the same configuration. -/
theorem generateProblemAttempts_some {cv : Int} {config : GameConfig} {σ : Nat → Nat}
    {p : Problem} {k' : Nat} :
    ∀ n k, generateProblemAttempts cv config σ n k = (some p, k') →
      ∃ op k₀ k₁, tryGenerateProblem cv op config σ k₀ = (some p, k₁) := by
  intro n
  induction n with
  | zero =>
      intro k h
      simp [generateProblemAttempts] at h
  | succ n ih =>
      intro k h
      simp only [generateProblemAttempts] at h
      rcases htry : tryGenerateProblem cv (selectOperationByMix config.operationMix (σ k))
          config σ (k + 1) with ⟨o, kb⟩
      rw [htry] at h
      cases o with
      | none => exact ih kb h
      | some q =>
          simp only [Prod.mk.injEq, Option.some.injEq] at h
          obtain ⟨hq, hk⟩ := h
          subst hq
          exact ⟨_, k + 1, kb, htry⟩

/-- Any problem returned by the ordered-fallback loop comes from some
`tryGenerateProblem` call with the same configuration. -/
theorem tryOperations_some {cv : Int} {config : GameConfig} {σ : Nat → Nat}
    {p : Problem} {k' : Nat} :
    ∀ l k, tryOperations cv config σ l k = (some p, k') →
      ∃ op k₀ k₁, tryGenerateProblem cv op config σ k₀ = (some p, k₁) := by
  intro l
  induction l with
  | nil =>
      intro k h
      simp [tryOperations] at h
  | cons op rest ih =>
      intro k h
      simp only [tryOperations] at h
      rcases htry : tryGenerateProblem cv op config σ k with ⟨o, kb⟩
      rw [htry] at h
      cases o with
      | none => exact ih kb h
      | some q =>
          simp only [Prod.mk.injEq, Option.some.injEq] at h
          obtain ⟨hq, hk⟩ := h
          subst hq
          exact ⟨op, k, kb, htry⟩

/-- Any problem returned by `generateProblem` comes from a
`tryGenerateProblem` call made with either the original configuration or its
last-resort simplification. -/
theorem generateProblem_some {cv : Int} {config : GameConfig} {σ : Nat → Nat}
    {ma k : Nat} {p : Problem} {k' : Nat}
    (h : generateProblem cv config σ ma k = (some p, k')) :
    ∃ op cfg₂ k₀ k₁, (cfg₂ = config ∨ cfg₂ = simpleConfig config) ∧
      tryGenerateProblem cv op cfg₂ σ k₀ = (some p, k₁) := by
  simp only [generateProblem] at h
  rcases h1 : generateProblemAttempts cv config σ ma k with ⟨o1, ka⟩
  rw [h1] at h
  cases o1 with
  | some q =>
      simp only [Prod.mk.injEq, Option.some.injEq] at h
      obtain ⟨hq, hk⟩ := h
      subst hq
      obtain ⟨op, k₀, k₁, htry⟩ := generateProblemAttempts_some ma k h1
      exact ⟨op, config, k₀, k₁, Or.inl rfl, htry⟩
  | none =>
      dsimp only at h
      rcases h2 : tryOperations cv config σ
          (sortedOperations config.operationMix [.add, .subtract, .multiply, .divide]) ka
        with ⟨o2, kb⟩
      rw [h2] at h
      cases o2 with
      | some q =>
          simp only [Prod.mk.injEq, Option.some.injEq] at h
          obtain ⟨hq, hk⟩ := h
          subst hq
          obtain ⟨op, k₀, k₁, htry⟩ := tryOperations_some _ ka h2
          exact ⟨op, config, k₀, k₁, Or.inl rfl, htry⟩
      | none =>
          dsimp only at h
          rcases h3 : tryGenerateProblem cv .add (simpleConfig config) σ kb with ⟨o3, kc⟩
          rw [h3] at h
          cases o3 with
          | some q =>
              simp only [Prod.mk.injEq, Option.some.injEq] at h
              obtain ⟨hq, hk⟩ := h
              subst hq
              exact ⟨.add, simpleConfig config, kb, kc, Or.inr rfl, h3⟩
          | none =>
              dsimp only at h
              rcases h4 : tryGenerateProblem cv .subtract (simpleConfig config) σ kc with ⟨o4, kd⟩
              rw [h4] at h
              cases o4 with
              | some q =>
                  simp only [Prod.mk.injEq, Option.some.injEq] at h
                  obtain ⟨hq, hk⟩ := h
                  subst hq
                  exact ⟨.subtract, simpleConfig config, kc, kd, Or.inr rfl, h4⟩
              | none => simp at h

/-! ## Helper lemmas: result bounds -/

/-- Well-formedness of operand bounds: every operation's configured minimum
operand is non-negative (true of every difficulty preset and of the default
configuration; operand bounds are magnitudes). -/
def NonnegOperandMins (config : GameConfig) : Prop :=
  ∀ op, 0 ≤ (config.operations.get op).minValue

theorem simpleConfig_maxResult (config : GameConfig) :
    (simpleConfig config).maxResult = config.maxResult := rfl

theorem simpleConfig_allowNeg (config : GameConfig) :
    (simpleConfig config).allowNegativeResults = config.allowNegativeResults := rfl

theorem simpleConfig_nonnegMins {config : GameConfig} (h : NonnegOperandMins config) :
    NonnegOperandMins (simpleConfig config) := by
  intro op
  cases op with
  | add => exact (by norm_num : (0 : Int) ≤ 1)
  | subtract => exact (by norm_num : (0 : Int) ≤ 1)
  | multiply => exact h .multiply
  | divide => exact h .divide

/-- Validation plus operand-range facts keep every produced result inside
`[-maxResult, maxResult]`, provided the configuration has non-negative operand
minima, a non-negative `maxResult`, and the current value is at least
`-maxResult`. -/
theorem tryGenerateProblem_bounds {cv : Int} {op : Operation} {config : GameConfig}
    {σ : Nat → Nat} {k : Nat} {p : Problem} {k' : Nat}
    (hσ : RandOk σ) (hR : 0 ≤ config.maxResult) (hmin : NonnegOperandMins config)
    (hcv : -config.maxResult ≤ cv)
    (h : tryGenerateProblem cv op config σ k = (some p, k')) :
    -config.maxResult ≤ p.result ∧ p.result ≤ config.maxResult := by
  obtain ⟨hstart, hop, hoper, hres, hv1, hv2, hdiv⟩ := tryGenerateProblem_some h
  refine ⟨?_, hv2⟩
  by_cases hneg : config.allowNegativeResults = true
  case neg =>
      have h1 := hv1 (by revert hneg; cases config.allowNegativeResults <;> simp)
      omega
  case pos =>
      cases op with
      | add =>
          have ha := generateOperand_add_some (hσ k) p.operand hoper
          have hmin0 := hmin .add
          simp only [OperationsConfig.get] at hmin0
          simp only [calculateResult] at hres
          omega
      | subtract =>
          have ha := generateOperand_subtract_some (hσ k) p.operand hoper
          rw [if_pos hneg] at ha
          simp only [calculateResult] at hres
          omega
      | multiply =>
          have ha := generateOperand_multiply_some (hσ k) p.operand hoper
          have hmin0 := hmin .multiply
          simp only [OperationsConfig.get] at hmin0
          simp only [calculateResult] at hres
          rcases ha with ⟨hcv0, _⟩ | ⟨hcv0, hlo, hhi⟩
          · subst hcv0
            simp only [zero_mul] at hres
            omega
          · rcases lt_trichotomy cv 0 with hlt | heq | hgt
            · have hfd : config.maxResult.fdiv cv ≤ 0 := Int.fdiv_nonpos hR hlt.le
              have hzero : p.operand = 0 := by omega
              rw [hzero, mul_zero] at hres
              omega
            · exact absurd heq hcv0
            · have h0a : 0 ≤ p.operand := by omega
              have : 0 ≤ cv * p.operand := mul_nonneg hgt.le h0a
              omega
      | divide =>
          obtain ⟨hne, hmod, hmul⟩ := hdiv rfl
          have ha := generateOperand_divide_some (hσ k) p.operand hoper
          rw [validDivisors_mem] at ha
          simp only [calculateResult] at hres
          have : p.result = cv / p.operand := hres
          omega

/-- Every divide problem accepted by `tryGenerateProblem` has a quotient in
`[1, maxResult]` and an operand no larger than its start value. -/
theorem tryGenerateProblem_divide_props {cv : Int} {op : Operation} {config : GameConfig}
    {σ : Nat → Nat} {k : Nat} {p : Problem} {k' : Nat}
    (hσ : RandOk σ)
    (h : tryGenerateProblem cv op config σ k = (some p, k'))
    (hop : p.operation = .divide) :
    1 ≤ p.result ∧ p.result ≤ config.maxResult ∧ p.operand ≤ p.startValue ∧
    p.operand ≠ 0 ∧ p.startValue % p.operand = 0 ∧ p.result * p.operand = p.startValue := by
  obtain ⟨hstart, hopeq, hoper, hres, hv1, hv2, hdiv⟩ := tryGenerateProblem_some h
  have hopd : op = .divide := by rw [← hopeq, hop]
  subst hopd
  obtain ⟨hne, hmod, hmul⟩ := hdiv rfl
  have ha := generateOperand_divide_some (hσ k) p.operand hoper
  rw [validDivisors_mem] at ha
  simp only [calculateResult] at hres
  refine ⟨by omega, by omega, by omega, hne, by rw [hstart]; exact hmod, ?_⟩
  rw [hstart]
  exact hmul

/-! ## Helper lemmas: chain assembly -/

/-- A list of problems forms a chain starting at `cv`: the first problem
starts at `cv` and each subsequent problem starts at the previous result. -/
def ChainedFrom (cv : Int) : List Problem → Prop
  | [] => True
  | p :: ps => p.startValue = cv ∧ ChainedFrom p.result ps

/-- Generic invariant lemma for the chain growth loop: if every problem
produced by `generateProblem` from an invariant current value satisfies `P`
and re-establishes the invariant at its result, then a successful loop run
extends the accumulator by a chained suffix of `P`-problems. -/
theorem chainLoop_invariant {config : GameConfig} {σ : Nat → Nat}
    (P : Problem → Prop) (I : Int → Prop)
    (hstep : ∀ cv k p k', I cv → generateProblem cv config σ 20 k = (some p, k') →
      P p ∧ I p.result ∧ p.startValue = cv) :
    ∀ fuel cv acc k out k', I cv → chainLoop config σ fuel cv acc k = (some out, k') →
      ∃ suf, out = acc ++ suf ∧ ChainedFrom cv suf ∧ ∀ p ∈ suf, P p := by
  intro fuel
  induction fuel with
  | zero =>
      intro cv acc k out k' hI h
      simp only [chainLoop, Prod.mk.injEq, Option.some.injEq] at h
      exact ⟨[], by simp [h.1.symm], trivial, by simp⟩
  | succ n ih =>
      intro cv acc k out k' hI h
      simp only [chainLoop] at h
      rcases hgen : generateProblem cv config σ 20 k with ⟨o, kb⟩
      rw [hgen] at h
      cases o with
      | none =>
          dsimp only at h
          split_ifs at h with h3
          · simp only [Prod.mk.injEq, Option.some.injEq] at h
            exact ⟨[], by simp [h.1.symm], trivial, by simp⟩
          · simp at h
      | some p =>
          dsimp only at h
          obtain ⟨hP, hI2, hstart⟩ := hstep cv k p kb hI hgen
          obtain ⟨suf, hout, hchain, hall⟩ := ih p.result (acc ++ [p]) kb out k' hI2 h
          refine ⟨p :: suf, by simp [hout], ⟨hstart, hchain⟩, ?_⟩
          intro q hq
          rcases List.mem_cons.mp hq with rfl | hq2
          · exact hP
          · exact hall q hq2

/-- Length bookkeeping for the chain growth loop: a successful run never
shrinks the accumulator, adds at most `fuel` problems, ends with at least 3
problems or with a full-length run, and any early stop is caused by a failing
`generateProblem` call. -/
theorem chainLoop_length {config : GameConfig} {σ : Nat → Nat} :
    ∀ fuel cv acc k out k', chainLoop config σ fuel cv acc k = (some out, k') →
      acc.length ≤ out.length ∧ out.length ≤ acc.length + fuel ∧
      (3 ≤ out.length ∨ out.length = acc.length + fuel) ∧
      (out.length < acc.length + fuel →
        ∃ cv₂ k₂, (generateProblem cv₂ config σ 20 k₂).1 = none) := by
  intro fuel
  induction fuel with
  | zero =>
      intro cv acc k out k' h
      simp only [chainLoop, Prod.mk.injEq, Option.some.injEq] at h
      rw [← h.1]
      exact ⟨le_refl _, by omega, Or.inr (by omega), by omega⟩
  | succ n ih =>
      intro cv acc k out k' h
      simp only [chainLoop] at h
      rcases hgen : generateProblem cv config σ 20 k with ⟨o, kb⟩
      rw [hgen] at h
      cases o with
      | none =>
          dsimp only at h
          split_ifs at h with h3
          · simp only [Prod.mk.injEq, Option.some.injEq] at h
            rw [← h.1]
            refine ⟨le_refl _, by omega, Or.inl h3, ?_⟩
            intro _
            exact ⟨cv, k, by rw [hgen]⟩
          · simp at h
      | some p =>
          dsimp only at h
          obtain ⟨h1, h2, h3, h4⟩ := ih p.result (acc ++ [p]) kb out k' h
          simp only [List.length_append, List.length_cons, List.length_nil] at h1 h2 h3 h4
          exact ⟨by omega, by omega, by omega, by intro hlt; exact h4 (by omega)⟩

/-- Every element of `goodStarts` is at least 12. -/
theorem goodStarts_ge : ∀ x ∈ goodStarts, 12 ≤ x := by decide

/-- The starting value drawn by `generateChain` is at least 1 whenever the
random source is valid and `maxResult` is non-negative. -/
theorem chainStart_pos {config : GameConfig} {σ : Nat → Nat} {k : Nat}
    (hσ : RandOk σ) (hR : 0 ≤ config.maxResult) :
    1 ≤ randomInt (chainStartBounds config σ k).1 ((chainStartBounds config σ k).2.1)
      (σ ((chainStartBounds config σ k).2.2)) := by
  simp only [chainStartBounds]
  split_ifs with hmd hlen
  · dsimp only
    set l := goodStarts.filter (fun n => decide (2 * n ≤ config.maxResult)) with hl
    set s := l.getD (randomInt 0 ((l.length : Int) - 1) (σ k)).toNat 0 with hs
    have hidx := randomInt_mem (hσ k) (show (0 : Int) ≤ (l.length : Int) - 1 by omega)
    have hlt : (randomInt 0 ((l.length : Int) - 1) (σ k)).toNat < l.length := by omega
    have hsmem : s ∈ l := by
      rw [hs, List.getD_eq_getElem l 0 hlt]
      exact List.getElem_mem hlt
    have hs12 : 12 ≤ s := goodStarts_ge s (List.mem_of_mem_filter hsmem)
    have hv := randomInt_mem (hσ (k + 1)) (le_refl s)
    omega
  · dsimp only
    have hlow := @randomInt_lower (10 : Int) (Min.min 50 (config.maxResult.fdiv 3)) (σ k) (hσ k)
    have hf3 : 0 ≤ config.maxResult.fdiv 3 := Int.fdiv_nonneg hR (by norm_num)
    omega
  · dsimp only
    have hlow := @randomInt_lower (Max.max 5 (config.maxResult.fdiv 10))
      (Min.min ((2 * config.maxResult).fdiv 5) 100) (σ k) (hσ k)
    have hf5 : 0 ≤ (2 * config.maxResult).fdiv 5 := Int.fdiv_nonneg (by omega) (by norm_num)
    omega

/-- Inversion for a successful `generateChain`: the problem list is non-empty,
comes from a growth-loop run starting at the chain's starting number, and —
for a valid random source and non-negative `maxResult` — the starting number
is at least 1. -/
theorem generateChain_some {config : GameConfig} {σ : Nat → Nat} {k : Nat}
    {c : ProblemChain} {k' : Nat}
    (h : generateChain config σ k = (some c, k')) :
    c.problems ≠ [] ∧
    (∃ k₀ k₁, chainLoop config σ config.chainLength.toNat c.startingNumber [] k₀ =
      (some c.problems, k₁)) ∧
    (RandOk σ → 0 ≤ config.maxResult → 1 ≤ c.startingNumber) := by
  simp only [generateChain] at h
  rcases hloop : chainLoop config σ config.chainLength.toNat
      (randomInt (chainStartBounds config σ k).1 ((chainStartBounds config σ k).2.1)
        (σ ((chainStartBounds config σ k).2.2)))
      [] ((chainStartBounds config σ k).2.2 + 1) with ⟨o, kb⟩
  rw [hloop] at h
  cases o with
  | none => simp at h
  | some problems =>
      dsimp only at h
      split_ifs at h with h0
      · simp at h
      · simp only [Prod.mk.injEq, Option.some.injEq] at h
        obtain ⟨hc, hk⟩ := h
        subst hc
        dsimp only
        refine ⟨?_, ⟨_, _, hloop⟩, fun hσ hR => chainStart_pos hσ hR⟩
        intro hnil
        rw [hnil] at h0
        exact h0 rfl

/-! ## Helper lemmas: worksheet assembly -/

/-- Invariants of the worksheet retry loop: accepted chains keep at least 3
problems, the collection never exceeds `chainCount`, at most `fuel` further
attempts are consumed, and the loop ends with either a full collection or an
exhausted budget. -/
theorem worksheetLoop_spec {config : GameConfig} {σ : Nat → Nat} :
    ∀ fuel chains k attempts,
      (∀ c ∈ chains, 3 ≤ c.problems.length) → (chains.length : Int) ≤ config.chainCount →
      (∀ c ∈ (worksheetLoop config σ fuel chains k attempts).1, 3 ≤ c.problems.length) ∧
      ((worksheetLoop config σ fuel chains k attempts).1.length : Int) ≤ config.chainCount ∧
      (worksheetLoop config σ fuel chains k attempts).2.2 ≤ attempts + fuel ∧
      (((worksheetLoop config σ fuel chains k attempts).1.length : Int) = config.chainCount ∨
        (worksheetLoop config σ fuel chains k attempts).2.2 = attempts + fuel) := by
  intro fuel
  induction fuel with
  | zero =>
      intro chains k attempts h3 hlen
      simp only [worksheetLoop]
      exact ⟨h3, hlen, by omega, Or.inr (by omega)⟩
  | succ n ih =>
      intro chains k attempts h3 hlen
      simp only [worksheetLoop]
      split_ifs with hguard
      · rcases hgen : generateChain config σ k with ⟨o, kb⟩
        cases o with
        | none =>
            dsimp only
            have := ih chains kb (attempts + 1) h3 hlen
            exact ⟨this.1, this.2.1, by omega, by omega⟩
        | some chain =>
            dsimp only
            split_ifs with hacc
            · have h3' : ∀ c ∈ chains ++ [chain], 3 ≤ c.problems.length := by
                intro c hc
                rcases List.mem_append.mp hc with hc | hc
                · exact h3 c hc
                · rw [List.mem_singleton.mp hc]
                  exact hacc
              have hlen' : ((chains ++ [chain]).length : Int) ≤ config.chainCount := by
                simp only [List.length_append, List.length_cons, List.length_nil]
                omega
              have := ih (chains ++ [chain]) kb (attempts + 1) h3' hlen'
              exact ⟨this.1, this.2.1, by omega, by omega⟩
            · have := ih chains kb (attempts + 1) h3 hlen
              exact ⟨this.1, this.2.1, by omega, by omega⟩
      · dsimp only
        exact ⟨h3, hlen, by omega, Or.inl (by omega)⟩

/-- Every chain collected by the worksheet retry loop was already present or
was produced by some `generateChain` call. -/
theorem worksheetLoop_members {config : GameConfig} {σ : Nat → Nat} :
    ∀ fuel chains k attempts c, c ∈ (worksheetLoop config σ fuel chains k attempts).1 →
      c ∈ chains ∨ ∃ k₀ k₁, generateChain config σ k₀ = (some c, k₁) := by
  intro fuel
  induction fuel with
  | zero =>
      intro chains k attempts c hc
      simp only [worksheetLoop] at hc
      exact Or.inl hc
  | succ n ih =>
      intro chains k attempts c hc
      simp only [worksheetLoop] at hc
      split_ifs at hc with hguard
      · rcases hgen : generateChain config σ k with ⟨o, kb⟩
        rw [hgen] at hc
        cases o with
        | none => exact ih chains kb (attempts + 1) c hc
        | some chain =>
            dsimp only at hc
            split_ifs at hc with hacc
            · rcases ih (chains ++ [chain]) kb (attempts + 1) c hc with hmem | hnew
              · rcases List.mem_append.mp hmem with hmem | hmem
                · exact Or.inl hmem
                · rw [List.mem_singleton.mp hmem]
                  exact Or.inr ⟨k, kb, hgen⟩
              · exact Or.inr hnew
            · exact ih chains kb (attempts + 1) c hc
      · exact Or.inl hc

/-! ## Claim theorems -/

/-- The drawn value `random = d / 2^53 * 100` is below an integer threshold
exactly when the model's scaled integer comparison holds. -/
theorem drawValue_lt_iff {d : Nat} {c : Int} :
    drawValue d < (c : ℚ) ↔ (100 * d : Int) < c * (D53 : Int) := by
  unfold drawValue
  have hD : (0 : ℚ) < (D53 : ℚ) := by
    have : 0 < D53 := by decide
    exact_mod_cast this
  rw [div_lt_iff₀ hD]
  constructor
  · intro h
    exact_mod_cast h
  · intro h
    exact_mod_cast h

/-- Dual form of `drawValue_lt_iff` for lower thresholds. -/
theorem drawValue_le_iff {d : Nat} {c : Int} :
    (c : ℚ) ≤ drawValue d ↔ c * (D53 : Int) ≤ (100 * d : Int) := by
  rw [← not_lt, ← not_lt, drawValue_lt_iff]

/-- C8.  Operation selection is total and follows the fixed-order cumulative
walk: for every mix of four percentages (whether or not they sum to 100, with
no sign restriction) and every draw, `selectOperationByMix` walks add,
subtract, multiply, divide in that order accumulating percentages, returns the
first operation whose cumulative threshold exceeds the drawn value, and
returns divide as the catch-all otherwise; being a total function of the model
it always returns one of the four operations and never crashes. -/
theorem claim_selectOperationByMix_cumulative_walk :
    ∀ (mix : OperationMix) (d : Nat),
      0 ≤ mix.add → 0 ≤ mix.subtract → 0 ≤ mix.multiply → 0 ≤ mix.divide →
      (selectOperationByMix mix d = .add ∨ selectOperationByMix mix d = .subtract ∨
       selectOperationByMix mix d = .multiply ∨ selectOperationByMix mix d = .divide) ∧
      (selectOperationByMix mix d = .add ↔ drawValue d < (mix.add : ℚ)) ∧
      (selectOperationByMix mix d = .subtract ↔
        (mix.add : ℚ) ≤ drawValue d ∧ drawValue d < ((mix.add + mix.subtract : Int) : ℚ)) ∧
      (selectOperationByMix mix d = .multiply ↔
        ((mix.add + mix.subtract : Int) : ℚ) ≤ drawValue d ∧
        drawValue d < ((mix.add + mix.subtract + mix.multiply : Int) : ℚ)) ∧
      (selectOperationByMix mix d = .divide ↔
        ((mix.add + mix.subtract + mix.multiply : Int) : ℚ) ≤ drawValue d) := by
  intro mix d ha hs hm hv
  have ha2 : 0 ≤ mix.add * (D53 : Int) := mul_nonneg ha D53_cast_pos.le
  have hs2 : 0 ≤ mix.subtract * (D53 : Int) := mul_nonneg hs D53_cast_pos.le
  have hm2 : 0 ≤ mix.multiply * (D53 : Int) := mul_nonneg hm D53_cast_pos.le
  simp only [drawValue_lt_iff, drawValue_le_iff]
  unfold selectOperationByMix
  simp only [add_mul]
  split_ifs with h1 h2 h3
  · exact ⟨Or.inl rfl, iff_of_true rfl h1,
      iff_of_false (by simp) (by omega),
      iff_of_false (by simp) (by omega),
      iff_of_false (by simp) (by omega)⟩
  · exact ⟨Or.inr (Or.inl rfl), iff_of_false (by simp) (by omega),
      iff_of_true rfl (by omega),
      iff_of_false (by simp) (by omega),
      iff_of_false (by simp) (by omega)⟩
  · exact ⟨Or.inr (Or.inr (Or.inl rfl)), iff_of_false (by simp) (by omega),
      iff_of_false (by simp) (by omega),
      iff_of_true rfl (by omega),
      iff_of_false (by simp) (by omega)⟩
  · exact ⟨Or.inr (Or.inr (Or.inr rfl)), iff_of_false (by simp) (by omega),
      iff_of_false (by simp) (by omega),
      iff_of_false (by simp) (by omega),
      iff_of_true rfl (by omega)⟩

/-- The arithmetic invariant `result = apply(operation, startValue, operand)`
of a stored problem; for divide this says the stored result is the exact
quotient (`result * operand = startValue` with a non-zero operand). -/
def ResultMatches (p : Problem) : Prop :=
  match p.operation with
  | .add => p.result = p.startValue + p.operand
  | .subtract => p.result = p.startValue - p.operand
  | .multiply => p.result = p.startValue * p.operand
  | .divide => p.operand ≠ 0 ∧ p.result * p.operand = p.startValue

/-- Every problem accepted by `tryGenerateProblem` satisfies the arithmetic
invariant. -/
theorem tryGenerateProblem_resultMatches {cv : Int} {op : Operation} {config : GameConfig}
    {σ : Nat → Nat} {k : Nat} {p : Problem} {k' : Nat}
    (h : tryGenerateProblem cv op config σ k = (some p, k')) : ResultMatches p := by
  obtain ⟨hstart, hop, hoper, hres, hv1, hv2, hdiv⟩ := tryGenerateProblem_some h
  unfold ResultMatches
  subst hop
  cases hc : p.operation with
  | add => simp only [calculateResult, hc] at hres; rw [hres, hstart]
  | subtract => simp only [calculateResult, hc] at hres; rw [hres, hstart]
  | multiply => simp only [calculateResult, hc] at hres; rw [hres, hstart]
  | divide =>
      obtain ⟨hne, hmod, hmul⟩ := hdiv hc
      exact ⟨hne, by rw [hstart]; exact hmul⟩

/-- Every problem produced by `generateProblem` starts at the current value
and satisfies the arithmetic invariant, whatever fallback tier produced it. -/
theorem generateProblem_step_props {cv : Int} {config : GameConfig} {σ : Nat → Nat}
    {ma k : Nat} {p : Problem} {k' : Nat}
    (h : generateProblem cv config σ ma k = (some p, k')) :
    p.startValue = cv ∧ ResultMatches p := by
  obtain ⟨op, cfg₂, k₀, k₁, hcfg, htry⟩ := generateProblem_some h
  exact ⟨(tryGenerateProblem_some htry).1, tryGenerateProblem_resultMatches htry⟩

/-- `ChainedFrom` in indexed form: the head starts at the chain start and each
later problem starts at its predecessor's result. -/
theorem chainedFrom_index {cv : Int} {l : List Problem} (h : ChainedFrom cv l) :
    (l ≠ [] → (l.getD 0 default).startValue = cv) ∧
    (∀ i, i + 1 < l.length → (l.getD (i + 1) default).startValue = (l.getD i default).result) := by
  induction l generalizing cv with
  | nil => exact ⟨fun hne => absurd rfl hne, fun i hi => by simp at hi⟩
  | cons p ps ih =>
      obtain ⟨hstart, hrest⟩ := h
      have ihp := ih hrest
      constructor
      · intro _
        simpa using hstart
      · intro i hi
        cases i with
        | zero =>
            simp only [List.length_cons] at hi
            have hne : ps ≠ [] := by
              intro hnil
              rw [hnil] at hi
              simp at hi
            simpa using ihp.1 hne
        | succ j =>
            simp only [List.length_cons] at hi
            simpa using ihp.2 j (by omega)

/-- C3.  Chain continuity: every chain returned by `generateChain` (for any
configuration and any random stream) has its first problem starting at
`startingNumber`, every later problem starting at the previous problem's
result, and every problem's result equal to applying its operation to its
start value and operand. -/
theorem claim_chain_continuity (config : GameConfig) (σ : Nat → Nat) (k : Nat)
    (c : ProblemChain) (k' : Nat) (h : generateChain config σ k = (some c, k')) :
    c.problems ≠ [] ∧
    (c.problems.getD 0 default).startValue = c.startingNumber ∧
    (∀ i, i + 1 < c.problems.length →
      (c.problems.getD (i + 1) default).startValue = (c.problems.getD i default).result) ∧
    (∀ p ∈ c.problems, ResultMatches p) := by
  obtain ⟨hne, ⟨k₀, k₁, hloop⟩, _⟩ := generateChain_some h
  obtain ⟨suf, hout, hchain, hall⟩ := chainLoop_invariant ResultMatches (fun _ => True)
    (fun cv kk p kk' _ hgen =>
      ⟨(generateProblem_step_props hgen).2, trivial, (generateProblem_step_props hgen).1⟩)
    config.chainLength.toNat c.startingNumber [] k₀ c.problems k₁ trivial hloop
  simp only [List.nil_append] at hout
  subst hout
  have hidx := chainedFrom_index hchain
  exact ⟨hne, hidx.1 hne, hidx.2, hall⟩

/-- The zero stream is a valid random source. -/
theorem zeroStream_randOk : RandOk zeroStream := by
  intro i
  show 0 < D53
  decide

theorem claim_chain_continuity_witness :
    ((generateChain cfgBase zeroStream 0).1.getD default).problems ≠ [] ∧
    (((generateChain cfgBase zeroStream 0).1.getD default).problems.getD 0
        default).startValue =
      ((generateChain cfgBase zeroStream 0).1.getD default).startingNumber ∧
    (∀ i, i + 1 < ((generateChain cfgBase zeroStream 0).1.getD default).problems.length →
      (((generateChain cfgBase zeroStream 0).1.getD default).problems.getD (i + 1)
          default).startValue =
        (((generateChain cfgBase zeroStream 0).1.getD default).problems.getD i
          default).result) ∧
    (∀ p ∈ ((generateChain cfgBase zeroStream 0).1.getD default).problems, ResultMatches p) :=
  claim_chain_continuity cfgBase zeroStream 0
    ((generateChain cfgBase zeroStream 0).1.getD default)
    (generateChain cfgBase zeroStream 0).2 (by rfl)

/-- C6.  Add operand search: for a well-formed operand range
(`minValue ≤ maxValue`) and a valid draw, the search fails exactly when
`maxResult - currentValue < minValue` (equivalently, when the range
`[minValue, min(maxValue, maxResult - currentValue)]` is empty), and any
returned operand lies in that range. -/
theorem claim_add_operand_search (cv : Int) (config : GameConfig) (σ : Nat → Nat) (k : Nat)
    (hd : σ k < D53)
    (hwf : config.operations.add.minValue ≤ config.operations.add.maxValue) :
    ((generateOperand .add cv config σ k).1 = none ↔
      config.maxResult - cv < config.operations.add.minValue) ∧
    ((generateOperand .add cv config σ k).1 = none ↔
      Min.min config.operations.add.maxValue (config.maxResult - cv) <
        config.operations.add.minValue) ∧
    (∀ a, (generateOperand .add cv config σ k).1 = some a →
      config.operations.add.minValue ≤ a ∧
      a ≤ Min.min config.operations.add.maxValue (config.maxResult - cv)) := by
  refine ⟨?_, generateOperand_add_none, generateOperand_add_some hd⟩
  rw [generateOperand_add_none]
  omega

theorem claim_add_operand_search_witness :
    (zeroStream 0 < D53 ∧
      cfgBase.operations.add.minValue ≤ cfgBase.operations.add.maxValue) ∧
    ((generateOperand .add 10 cfgBase zeroStream 0).1 = none ↔
      cfgBase.maxResult - 10 < cfgBase.operations.add.minValue) :=
  ⟨⟨by decide, by decide⟩,
   (claim_add_operand_search 10 cfgBase zeroStream 0 (by decide) (by decide)).1⟩

/-- A problem whose stored arithmetic is exact gives, for divide, a non-zero
operand dividing the start value evenly with the stored quotient. -/
def DivideExact (p : Problem) : Prop :=
  p.operation = .divide →
    p.operand ≠ 0 ∧ p.startValue % p.operand = 0 ∧ p.result * p.operand = p.startValue

theorem resultMatches_divideExact {p : Problem} (h : ResultMatches p) : DivideExact p := by
  intro hop
  unfold ResultMatches at h
  rw [hop] at h
  obtain ⟨hne, hmul⟩ := h
  refine ⟨hne, ?_, hmul⟩
  exact Int.emod_eq_zero_of_dvd ⟨p.result, by rw [← hmul]; ring⟩

/-- C4.  Divide contract: operand search for divide fails whenever
`currentValue ≤ 0`; for positive current values it fails exactly when no
divisor `dv ∈ [minValue, min(maxValue, currentValue)]` with
`currentValue % dv = 0` and quotient in `[1, maxResult]` exists, and any
returned operand is such a divisor; consequently every divide problem in
every generated chain has an exact integer result and
`startValue % operand = 0`. -/
theorem claim_divide_operand_search (config : GameConfig) (σ : Nat → Nat) (hσ : RandOk σ) :
    (∀ cv k, cv ≤ 0 → (generateOperand .divide cv config σ k).1 = none) ∧
    (∀ cv k, 0 < cv →
      ((generateOperand .divide cv config σ k).1 = none ↔
        ¬ ∃ dv, config.operations.divide.minValue ≤ dv ∧
            dv ≤ Min.min config.operations.divide.maxValue cv ∧
            cv % dv = 0 ∧ 1 ≤ cv / dv ∧ cv / dv ≤ config.maxResult)) ∧
    (∀ cv k a, (generateOperand .divide cv config σ k).1 = some a →
        config.operations.divide.minValue ≤ a ∧
        a ≤ Min.min config.operations.divide.maxValue cv ∧
        cv % a = 0 ∧ 1 ≤ cv / a ∧ cv / a ≤ config.maxResult) ∧
    (∀ k chain k', generateChain config σ k = (some chain, k') →
      ∀ p ∈ chain.problems, p.operation = .divide →
        p.operand ≠ 0 ∧ p.startValue % p.operand = 0 ∧ p.result * p.operand = p.startValue) := by
  refine ⟨fun cv k hcv => generateOperand_divide_nonpos hcv, ?_, ?_, ?_⟩
  · intro cv k hcv
    rw [generateOperand_divide_none hcv, List.eq_nil_iff_forall_not_mem]
    constructor
    · intro hall ⟨dv, h1, h2, h3, h4, h5⟩
      exact hall dv (validDivisors_mem.mpr ⟨h1, h2, h3, h4, h5⟩)
    · intro hnone dv hmem
      exact hnone ⟨dv, validDivisors_mem.mp hmem⟩
  · intro cv k a ha
    exact validDivisors_mem.mp (generateOperand_divide_some (hσ k) a ha)
  · intro k chain k' h p hp hop
    obtain ⟨hne, ⟨k₀, k₁, hloop⟩, _⟩ := generateChain_some h
    obtain ⟨suf, hout, hchain, hall⟩ := chainLoop_invariant DivideExact (fun _ => True)
      (fun cv kk q kk' _ hgen =>
        ⟨resultMatches_divideExact (generateProblem_step_props hgen).2, trivial,
         (generateProblem_step_props hgen).1⟩)
      config.chainLength.toNat chain.startingNumber [] k₀ chain.problems k₁ trivial hloop
    simp only [List.nil_append] at hout
    subst hout
    exact hall p hp hop

theorem claim_divide_operand_search_witness :
    RandOk zeroStream ∧
    (cfgBase.operations.divide.minValue ≤ 2 ∧
      2 ≤ Min.min cfgBase.operations.divide.maxValue 12 ∧
      (12 : Int) % 2 = 0 ∧ 1 ≤ (12 : Int) / 2 ∧ (12 : Int) / 2 ≤ cfgBase.maxResult) :=
  ⟨zeroStream_randOk,
   (claim_divide_operand_search cfgBase zeroStream zeroStream_randOk).2.2.1 12 0 2 (by rfl)⟩

/-- Divide-problem facts for whole chains: quotient in `[1, maxResult]` and
operand bounded by the start value. -/
theorem generateChain_divide_props {config : GameConfig} {σ : Nat → Nat} (hσ : RandOk σ) :
    ∀ k chain k', generateChain config σ k = (some chain, k') →
      ∀ p ∈ chain.problems, p.operation = .divide →
        1 ≤ p.result ∧ p.result ≤ config.maxResult ∧ p.operand ≤ p.startValue := by
  intro k chain k' h p hp
  obtain ⟨hne, ⟨k₀, k₁, hloop⟩, _⟩ := generateChain_some h
  obtain ⟨suf, hout, hchain, hall⟩ := chainLoop_invariant
    (fun q => q.operation = .divide →
      1 ≤ q.result ∧ q.result ≤ config.maxResult ∧ q.operand ≤ q.startValue)
    (fun _ => True)
    (fun cv kk q kk' _ hgen => by
      obtain ⟨op, cfg₂, j₀, j₁, hcfg, htry⟩ := generateProblem_some hgen
      refine ⟨fun hop => ?_, trivial, (tryGenerateProblem_some htry).1⟩
      rcases hcfg with rfl | rfl
      · have := tryGenerateProblem_divide_props hσ htry hop
        exact ⟨this.1, this.2.1, this.2.2.1⟩
      · have := tryGenerateProblem_divide_props hσ htry hop
        exact ⟨this.1, this.2.1, this.2.2.1⟩)
    config.chainLength.toNat chain.startingNumber [] k₀ chain.problems k₁ trivial hloop
  simp only [List.nil_append] at hout
  subst hout
  exact hall p hp

/-- Bounds facts for whole chains: every stored result lies in
`[-maxResult, maxResult]`, and is at least 1 when negative results are
disallowed. -/
theorem generateChain_bounds_props {config : GameConfig} {σ : Nat → Nat}
    (hσ : RandOk σ) (hR : 0 ≤ config.maxResult) (hmin : NonnegOperandMins config) :
    ∀ k chain k', generateChain config σ k = (some chain, k') →
      ∀ p ∈ chain.problems,
        -config.maxResult ≤ p.result ∧ p.result ≤ config.maxResult ∧
        (config.allowNegativeResults = false → 1 ≤ p.result) := by
  intro k chain k' h p hp
  obtain ⟨hne, ⟨k₀, k₁, hloop⟩, hstartpos⟩ := generateChain_some h
  have hstart : -config.maxResult ≤ chain.startingNumber := by
    have := hstartpos hσ hR
    omega
  obtain ⟨suf, hout, hchain, hall⟩ := chainLoop_invariant
    (fun q => -config.maxResult ≤ q.result ∧ q.result ≤ config.maxResult ∧
      (config.allowNegativeResults = false → 1 ≤ q.result))
    (fun cv => -config.maxResult ≤ cv)
    (fun cv kk q kk' hI hgen => by
      obtain ⟨op, cfg₂, j₀, j₁, hcfg, htry⟩ := generateProblem_some hgen
      rcases hcfg with rfl | rfl
      · have hb := tryGenerateProblem_bounds hσ hR hmin hI htry
        have hv := (tryGenerateProblem_some htry).2.2.2.2.1
        exact ⟨⟨hb.1, hb.2, hv⟩, hb.1, (tryGenerateProblem_some htry).1⟩
      · have hb := tryGenerateProblem_bounds hσ
          (show 0 ≤ (simpleConfig config).maxResult from hR)
          (simpleConfig_nonnegMins hmin)
          (show -(simpleConfig config).maxResult ≤ cv from hI) htry
        have hv := (tryGenerateProblem_some htry).2.2.2.2.1
        exact ⟨⟨hb.1, hb.2, hv⟩, hb.1, (tryGenerateProblem_some htry).1⟩)
    config.chainLength.toNat chain.startingNumber [] k₀ chain.problems k₁ hstart hloop
  simp only [List.nil_append] at hout
  subst hout
  exact hall p hp

/-- Every chain of a generated worksheet comes from some successful
`generateChain` call. -/
theorem generateWorksheet_chains_inv {config : GameConfig} {σ : Nat → Nat}
    {k : Nat} {ws : Worksheet} {k' : Nat}
    (h : generateWorksheet config σ k = (ws, k')) :
    ∀ c ∈ ws.chains, ∃ k₀ k₁, generateChain config σ k₀ = (some c, k₁) := by
  simp only [generateWorksheet] at h
  injection h with h1 h2
  subst h1
  intro c hc
  dsimp only at hc
  rcases worksheetLoop_members (config.chainCount * 3).toNat [] k 0 c hc with hin | hex
  · simp at hin
  · exact hex

/-- C9 (implicit).  Divide results are always strictly positive: for every
configuration (including `allowNegativeResults = true`) and valid random
source, every divide problem in every generated chain — and hence in every
worksheet — has `result ∈ [1, maxResult]` and `operand ≤ startValue`. -/
theorem claim_divide_results_positive (config : GameConfig) (σ : Nat → Nat) (hσ : RandOk σ) :
    (∀ k chain k', generateChain config σ k = (some chain, k') →
      ∀ p ∈ chain.problems, p.operation = .divide →
        1 ≤ p.result ∧ p.result ≤ config.maxResult ∧ p.operand ≤ p.startValue) ∧
    (∀ k ws k', generateWorksheet config σ k = (ws, k') →
      ∀ c ∈ ws.chains, ∀ p ∈ c.problems, p.operation = .divide →
        1 ≤ p.result ∧ p.result ≤ config.maxResult ∧ p.operand ≤ p.startValue) := by
  refine ⟨generateChain_divide_props hσ, ?_⟩
  intro k ws k' h c hc p hp hop
  obtain ⟨k₀, k₁, hgen⟩ := generateWorksheet_chains_inv h c hc
  exact generateChain_divide_props hσ k₀ c k₁ hgen p hp hop

theorem claim_divide_results_positive_witness :
    RandOk zeroStream ∧
    (∀ p ∈ ((generateChain cfgDivideHeavy zeroStream 0).1.getD default).problems,
      p.operation = .divide →
        1 ≤ p.result ∧ p.result ≤ cfgDivideHeavy.maxResult ∧ p.operand ≤ p.startValue) :=
  ⟨zeroStream_randOk,
   (claim_divide_results_positive cfgDivideHeavy zeroStream zeroStream_randOk).1 0
     ((generateChain cfgDivideHeavy zeroStream 0).1.getD default)
     (generateChain cfgDivideHeavy zeroStream 0).2 (by rfl)⟩

/-- C2 (amended).  Bounds invariant for well-formed configurations
(`0 ≤ maxResult` and non-negative operand minima): every problem of every
generated chain — and hence of every worksheet — has
`1 ≤ result ≤ maxResult` when `allowNegativeResults` is false and
`-maxResult ≤ result ≤ maxResult` when it is true. -/
theorem claim_bounds_invariant (config : GameConfig) (σ : Nat → Nat)
    (hσ : RandOk σ) (hR : 0 ≤ config.maxResult) (hmin : NonnegOperandMins config) :
    (∀ k chain k', generateChain config σ k = (some chain, k') →
      ∀ p ∈ chain.problems,
        (config.allowNegativeResults = false → 1 ≤ p.result ∧ p.result ≤ config.maxResult) ∧
        (config.allowNegativeResults = true →
          -config.maxResult ≤ p.result ∧ p.result ≤ config.maxResult)) ∧
    (∀ k ws k', generateWorksheet config σ k = (ws, k') →
      ∀ c ∈ ws.chains, ∀ p ∈ c.problems,
        (config.allowNegativeResults = false → 1 ≤ p.result ∧ p.result ≤ config.maxResult) ∧
        (config.allowNegativeResults = true →
          -config.maxResult ≤ p.result ∧ p.result ≤ config.maxResult)) := by
  constructor
  · intro k chain k' h p hp
    have hb := generateChain_bounds_props hσ hR hmin k chain k' h p hp
    exact ⟨fun hneg => ⟨hb.2.2 hneg, hb.2.1⟩, fun _ => ⟨hb.1, hb.2.1⟩⟩
  · intro k ws k' h c hc p hp
    obtain ⟨k₀, k₁, hgen⟩ := generateWorksheet_chains_inv h c hc
    have hb := generateChain_bounds_props hσ hR hmin k₀ c k₁ hgen p hp
    exact ⟨fun hneg => ⟨hb.2.2 hneg, hb.2.1⟩, fun _ => ⟨hb.1, hb.2.1⟩⟩

theorem claim_bounds_invariant_witness :
    (RandOk zeroStream ∧ (0 : Int) ≤ cfgBase.maxResult ∧ NonnegOperandMins cfgBase) ∧
    (∀ p ∈ ((generateChain cfgBase zeroStream 0).1.getD default).problems,
      (cfgBase.allowNegativeResults = false →
        1 ≤ p.result ∧ p.result ≤ cfgBase.maxResult) ∧
      (cfgBase.allowNegativeResults = true →
        -cfgBase.maxResult ≤ p.result ∧ p.result ≤ cfgBase.maxResult)) :=
  ⟨⟨zeroStream_randOk, by decide, fun op => by cases op <;> decide⟩,
   (claim_bounds_invariant cfgBase zeroStream zeroStream_randOk (by decide)
      (fun op => by cases op <;> decide)).1 0
     ((generateChain cfgBase zeroStream 0).1.getD default)
     (generateChain cfgBase zeroStream 0).2 (by rfl)⟩

/-- C2 as literally stated is false: with negative results allowed and a
negative operand range for addition, `generateChain` returns a chain whose
single problem has result `10 + (-500) = -490`, far below `-maxResult = -100`;
no validation step checks the lower bound when negative results are allowed. -/
theorem claim_bounds_invariant_cex :
    ¬ (∀ chain k', generateChain cfgNegOperand zeroStream 0 = (some chain, k') →
        ∀ p ∈ chain.problems,
          (cfgNegOperand.allowNegativeResults = true →
            -cfgNegOperand.maxResult ≤ p.result ∧ p.result ≤ cfgNegOperand.maxResult)) := by
  intro h
  have h1 := h ((generateChain cfgNegOperand zeroStream 0).1.getD default)
    (generateChain cfgNegOperand zeroStream 0).2 (by rfl)
  have h2 := h1
    (((generateChain cfgNegOperand zeroStream 0).1.getD default).problems.getD 0 default)
    (by decide) rfl
  exact absurd h2.1 (by decide)

/-- C1 (amended).  For every configuration whose requested `chainLength` is at
least 3, `generateChain` never returns a chain with fewer than 3 problems:
whenever fewer than 3 problems can be accumulated it returns `none`. -/
theorem claim_min_viable_chain (config : GameConfig) (σ : Nat → Nat) (k : Nat)
    (hlen : 3 ≤ config.chainLength) :
    ∀ chain k', generateChain config σ k = (some chain, k') →
      3 ≤ chain.problems.length := by
  intro chain k' h
  obtain ⟨hne, ⟨k₀, k₁, hloop⟩, _⟩ := generateChain_some h
  obtain ⟨h1, h2, h3, h4⟩ := chainLoop_length config.chainLength.toNat
    chain.startingNumber [] k₀ chain.problems k₁ hloop
  simp only [List.length_nil] at h2 h3
  omega

theorem claim_min_viable_chain_witness :
    (3 : Int) ≤ cfgBase.chainLength ∧
    3 ≤ ((generateChain cfgBase zeroStream 0).1.getD default).problems.length :=
  ⟨by decide,
   claim_min_viable_chain cfgBase zeroStream 0 (by decide)
     ((generateChain cfgBase zeroStream 0).1.getD default)
     (generateChain cfgBase zeroStream 0).2 (by rfl)⟩

/-- C1 as literally stated is false: with `chainLength = 1` and a run in which
every step succeeds, `generateChain` returns a chain with exactly one problem
(the `problems.length === 0` guard only rejects empty chains). -/
theorem claim_min_viable_chain_cex :
    ¬ (∀ chain k', generateChain cfgShort zeroStream 0 = (some chain, k') →
        3 ≤ chain.problems.length) := by
  intro h
  exact absurd
    (h ((generateChain cfgShort zeroStream 0).1.getD default)
      (generateChain cfgShort zeroStream 0).2 (by rfl))
    (by decide)

/-- C10 (implicit).  Chain length bounds: for `chainLength ≥ 1`, every chain
returned by `generateChain` has between `min 3 chainLength` and `chainLength`
problems, and a chain shorter than `chainLength` can only arise from a failing
`generateProblem` step. -/
theorem claim_chain_length_bounds (config : GameConfig) (σ : Nat → Nat) (k : Nat)
    (hlen : 1 ≤ config.chainLength) :
    ∀ chain k', generateChain config σ k = (some chain, k') →
      Min.min 3 config.chainLength ≤ (chain.problems.length : Int) ∧
      (chain.problems.length : Int) ≤ config.chainLength ∧
      ((chain.problems.length : Int) < config.chainLength →
        ∃ cv k₂, (generateProblem cv config σ 20 k₂).1 = none) := by
  intro chain k' h
  obtain ⟨hne, ⟨k₀, k₁, hloop⟩, _⟩ := generateChain_some h
  obtain ⟨h1, h2, h3, h4⟩ := chainLoop_length config.chainLength.toNat
    chain.startingNumber [] k₀ chain.problems k₁ hloop
  simp only [List.length_nil] at h2 h3 h4
  refine ⟨by omega, by omega, fun hlt => h4 (by omega)⟩

theorem claim_chain_length_bounds_witness :
    (1 : Int) ≤ cfgBase.chainLength ∧
    (Min.min 3 cfgBase.chainLength ≤
      (((generateChain cfgBase zeroStream 0).1.getD default).problems.length : Int) ∧
     (((generateChain cfgBase zeroStream 0).1.getD default).problems.length : Int) ≤
       cfgBase.chainLength ∧
     ((((generateChain cfgBase zeroStream 0).1.getD default).problems.length : Int) <
        cfgBase.chainLength →
       ∃ cv k₂, (generateProblem cv cfgBase zeroStream 20 k₂).1 = none)) :=
  ⟨by decide,
   claim_chain_length_bounds cfgBase zeroStream 0 (by decide)
     ((generateChain cfgBase zeroStream 0).1.getD default)
     (generateChain cfgBase zeroStream 0).2 (by rfl)⟩

/-- C7.  Worksheet assembly: `generateWorksheet` is a total function (it never
fails), its worksheet holds at most `chainCount` chains, each with at least 3
problems, and the retry loop stops once `chainCount` chains are accepted or
after exactly the attempt budget `chainCount * 3`. -/
theorem claim_worksheet_assembly (config : GameConfig) (σ : Nat → Nat)
    (hcc : 0 ≤ config.chainCount) :
    ∀ k ws k', generateWorksheet config σ k = (ws, k') →
      (ws.chains.length : Int) ≤ config.chainCount ∧
      (∀ c ∈ ws.chains, 3 ≤ c.problems.length) ∧
      ((worksheetLoop config σ (config.chainCount * 3).toNat [] k 0).2.2 : Int) ≤
        config.chainCount * 3 ∧
      (((worksheetLoop config σ (config.chainCount * 3).toNat [] k 0).1.length : Int) =
          config.chainCount ∨
        ((worksheetLoop config σ (config.chainCount * 3).toNat [] k 0).2.2 : Int) =
          config.chainCount * 3) := by
  intro k ws k' h
  have hspec := @worksheetLoop_spec config σ (config.chainCount * 3).toNat [] k 0
    (by intro c hc; simp at hc) (by simpa using hcc)
  simp only [generateWorksheet] at h
  injection h with h1 h2
  subst h1
  dsimp only
  refine ⟨hspec.2.1, hspec.1, by omega, ?_⟩
  rcases hspec.2.2.2 with heq | heq
  · exact Or.inl heq
  · right
    omega

theorem claim_worksheet_assembly_witness :
    (0 : Int) ≤ cfgTwoChains.chainCount ∧
    (((generateWorksheet cfgTwoChains zeroStream 0).1.chains.length : Int) ≤
      cfgTwoChains.chainCount ∧
     (∀ c ∈ (generateWorksheet cfgTwoChains zeroStream 0).1.chains,
       3 ≤ c.problems.length)) :=
  ⟨by decide,
   ⟨((claim_worksheet_assembly cfgTwoChains zeroStream (by decide) 0
       (generateWorksheet cfgTwoChains zeroStream 0).1
       (generateWorksheet cfgTwoChains zeroStream 0).2) (by rfl)).1,
    ((claim_worksheet_assembly cfgTwoChains zeroStream (by decide) 0
       (generateWorksheet cfgTwoChains zeroStream 0).1
       (generateWorksheet cfgTwoChains zeroStream 0).2) (by rfl)).2.1⟩⟩

/-- C5 fails on the code: chain ids are pure functions of single
`Math.random()` draws, so a random source that repeats a draw (here: the
constant source) produces a worksheet whose two chains carry identical ids —
the id list has a duplicate — contradicting the specified (and
doc-commented) uniqueness.  Problem ids within one chain collide the same
way. -/
theorem claim_id_uniqueness_failure :
    (generateWorksheet cfgTwoChains zeroStream 0).1.chains.length = 2 ∧
    ¬ ((generateWorksheet cfgTwoChains zeroStream 0).1.chains.map ProblemChain.id).Nodup ∧
    ¬ ((((generateWorksheet cfgTwoChains zeroStream 0).1.chains.getD 0
          default).problems.map Problem.id).Nodup) := by
  refine ⟨by decide, by decide, by decide⟩

theorem claim_selectOperationByMix_cumulative_walk_witness :
    ((0 : Int) ≤ cfgBase.operationMix.add ∧ (0 : Int) ≤ cfgBase.operationMix.subtract ∧
     (0 : Int) ≤ cfgBase.operationMix.multiply ∧ (0 : Int) ≤ cfgBase.operationMix.divide) ∧
    (selectOperationByMix cfgBase.operationMix 0 = .add ↔
      drawValue 0 < (cfgBase.operationMix.add : ℚ)) :=
  ⟨⟨by decide, by decide, by decide, by decide⟩,
   (claim_selectOperationByMix_cumulative_walk cfgBase.operationMix 0
      (by decide) (by decide) (by decide) (by decide)).2.1⟩

end MindGames
